import Mathlib

/-! Shallow embedding of `crawler.py` (class `WebsiteScraperAlpacaFormatter`).
Python strings are modelled as `List Char`; the Python string primitives the
source uses (`split`, `strip`, `replace`, `lower`, substring `in`) are embedded
first, and the source functions are translated on top of them. -/

/-- Check that the second character list starts with the first (the prefix
test underlying the Python substring primitives below). -/
def startsWith : List Char → List Char → Bool
  | [], _ => true
  | _ :: _, [] => false
  | p :: ps, c :: cs => p == c && startsWith ps cs

/-- Python substring test `needle in hay`. -/
def pyContains (needle : List Char) : List Char → Bool
  | [] => needle.isEmpty
  | c :: rest => startsWith needle (c :: rest) || pyContains needle rest

/-- Python `str.lower` (ASCII case folding — the only case the fixed patterns
exercise). -/
def pyLower (s : List Char) : List Char := s.map Char.toLower

/-- Python `str.strip()`: remove leading and trailing whitespace. -/
def pyStrip (s : List Char) : List Char :=
  ((s.dropWhile Char.isWhitespace).reverse.dropWhile Char.isWhitespace).reverse

/-- Fuel-indexed worker for Python `str.split(sep)` with nonempty separator:
split at each non-overlapping occurrence of `sep`, scanning left to right.
The fuel (instantiated with the length of the string by `pySplit`) only makes
the recursion structural; it never runs out when it starts at the length. -/
def pySplitF (sep : List Char) : Nat → List Char → List (List Char)
  | _, [] => [[]]
  | 0, s => [s]
  | fuel + 1, c :: rest =>
    if !sep.isEmpty && startsWith sep (c :: rest) then
      [] :: pySplitF sep fuel (List.drop sep.length (c :: rest))
    else
      match pySplitF sep fuel rest with
      | [] => [[c]]
      | h :: t => (c :: h) :: t

/-- Python `str.split(sep)` for a nonempty separator. -/
def pySplit (sep s : List Char) : List (List Char) := pySplitF sep s.length s

/-- Fuel-indexed count of the non-overlapping occurrences of `sep`, scanning
left to right — the number of parts `pySplitF` yields, minus one. -/
def pyCountF (sep : List Char) : Nat → List Char → Nat
  | _, [] => 0
  | 0, _ => 0
  | fuel + 1, c :: rest =>
    if !sep.isEmpty && startsWith sep (c :: rest) then
      1 + pyCountF sep fuel (List.drop sep.length (c :: rest))
    else pyCountF sep fuel rest

/-- Number of occurrences of `sep` in `s`, in the sense of Python `s.count`. -/
def pyCount (sep s : List Char) : Nat := pyCountF sep s.length s

/-- Fuel-indexed worker for Python `str.replace(old, new)` with nonempty
`old`: replace every non-overlapping occurrence, scanning left to right. -/
def pyReplaceF (old new : List Char) : Nat → List Char → List Char
  | _, [] => []
  | 0, s => s
  | fuel + 1, c :: rest =>
    if !old.isEmpty && startsWith old (c :: rest) then
      new ++ pyReplaceF old new fuel (List.drop old.length (c :: rest))
    else c :: pyReplaceF old new fuel rest

/-- Python `str.replace(old, new)` for nonempty `old`. -/
def pyReplace (old new s : List Char) : List Char := pyReplaceF old new s.length s

/-- The `INPUT:` delimiter token of the generation template. -/
def inputTok : List Char := "INPUT:".toList

/-- The `OUTPUT:` delimiter token of the generation template. -/
def outputTok : List Char := "OUTPUT:".toList

/-- The `INSTRUCTION:` label token of the generation template. -/
def instructionTok : List Char := "INSTRUCTION:".toList

/-- A generated instruction/input/output record (crawler.py lines 137-141). -/
structure Record where
  instruction : List Char
  input : List Char
  output : List Char
deriving DecidableEq

/-- Parsing of one generation reply (crawler.py lines 126-141): split on
`INPUT:` and require exactly two parts; remove every `INSTRUCTION:` from the
first part and strip it; split the second part on `OUTPUT:` and require
exactly two parts; strip both. `none` models an attempt that appends no
record. -/
def parse_generated_content (generated_content : List Char) : Option Record :=
  match pySplit inputTok generated_content with
  | [p0, p1] =>
    let instruction := pyStrip (pyReplace instructionTok [] p0)
    match pySplit outputTok p1 with
    | [q0, q1] => some ⟨instruction, pyStrip q0, pyStrip q1⟩
    | _ => none
  | _ => none

/-- One batch of generation attempts (crawler.py lines 106-146). Each
attempt's interaction with the remote service is one element of `outcomes`:
`none` models a raised exception (caught by the `except` branch and logged),
`some c` models a reply whose message content is `c`. The extracted text is
embedded in the outbound request (see `userMessage`) but does not influence
how a reply is parsed. -/
def generate_instruction_pairs (text_content : List Char)
    (outcomes : List (Option (List Char))) : List Record :=
  outcomes.filterMap (fun oc => oc.bind parse_generated_content)

/-- Text of the user message before the embedded recipe text (crawler.py
lines 112-113). -/
def userMsgBefore : List Char :=
  "\n                        Create a unique instruction-input-output pair based on this recipe: ".toList

/-- Text of the user message after the embedded recipe text (crawler.py
lines 113-121). -/
def userMsgAfter : List Char :=
  ("\n                        \n                        Format as:\n                        INSTRUCTION: A generalised overview of the instructions for the recipe\n                        INPUT: [Context or specific question]\n                        OUTPUT: [Detailed response in markdown format]\n                        \n                        Make sure the output includes proper markdown formatting with lists, headers, or emphasis where appropriate.\n                        ").toList

/-- The user message sent to the generation service (crawler.py line 113):
the f-string embeds `text_content[:2000]`, the first 2000 characters. -/
def userMessage (text_content : List Char) : List Char :=
  userMsgBefore ++ text_content.take 2000 ++ userMsgAfter

/-- The mutable attributes of `WebsiteScraperAlpacaFormatter` (crawler.py
lines 16-18 and 183): the API client handle is omitted; `url` is absent until
the orchestration loop first assigns it. -/
structure ScraperState where
  base_url : List Char
  visited_urls : List (List Char)
  url : Option (List Char)
deriving DecidableEq

/-- The fixed recipe-URL substring heuristics (crawler.py lines 35-39). -/
def recipe_patterns : List (List Char) :=
  ["/recipe/".toList, "/recipes/".toList, "recipe-".toList, "recipes-".toList,
   "cooking/".toList, "food/".toList]

/-- Scheme and authority of a URL: everything up to the first slash after the
"://" separator. -/
def schemeAuthority (base : List Char) : List Char :=
  match pySplit "://".toList base with
  | s :: rest :: _ => s ++ "://".toList ++ rest.takeWhile (fun c => c ≠ '/')
  | _ => base

/-- Directory part of a URL: everything up to and including the last slash. -/
def upToLastSlash (base : List Char) : List Char :=
  (base.reverse.dropWhile (fun c => c ≠ '/')).reverse

/-- Models `urllib.parse.urljoin` (crawler.py line 47) for the reference
shapes this crawler meets: a path-absolute reference (leading slash) resolves
against the scheme and authority of the base, an empty reference yields the
base, and any other relative reference resolves against the directory of the
base. Network-path, query and fragment references are out of scope here. -/
def urljoin (base href : List Char) : List Char :=
  if startsWith "/".toList href then schemeAuthority base ++ href
  else if href.isEmpty then base
  else upToLastSlash base ++ href

/-- Resolution applied to each anchor href (crawler.py lines 46-47): hrefs
without an explicit http or https scheme are made absolute against the page
URL. -/
def resolveHref (url href : List Char) : List Char :=
  if startsWith "http://".toList href || startsWith "https://".toList href then href
  else urljoin url href

/-- The filter of crawler.py lines 50-52: the lowercased URL matches one of
the recipe patterns, the configured base URL occurs in the URL (not
lowercased), and the URL is not in the visited set. -/
def keepLink (base_url : List Char) (visited_urls : List (List Char))
    (href : List Char) : Bool :=
  recipe_patterns.any (fun pat => pyContains pat (pyLower href)) &&
  pyContains base_url href &&
  !(decide (href ∈ visited_urls))

/-- The anchor scan of crawler.py lines 42-55. `acc` plays the role of the
`recipe_links` set, kept as an insertion-ordered duplicate-free list (the
claims below depend only on membership and size): after each insertion the
scan stops as soon as the set has at least `max_links` elements. -/
def findLoop (base_url : List Char) (visited_urls : List (List Char))
    (url : List Char) (max_links : Nat) :
    List (List Char) → List (List Char) → List (List Char)
  | acc, [] => acc
  | acc, a :: rest =>
    let href := resolveHref url a
    if keepLink base_url visited_urls href then
      let acc2 := if href ∈ acc then acc else acc ++ [href]
      if max_links ≤ acc2.length then acc2
      else findLoop base_url visited_urls url max_links acc2 rest
    else findLoop base_url visited_urls url max_links acc rest

/-- Result of one discovery call: the returned list of links and whether the
except branch printed its error message. -/
structure FindResult where
  links : List (List Char)
  errorLogged : Bool
deriving DecidableEq

/-- `find_recipe_links` (crawler.py lines 20-60) as a state-passing function.
`fetch` is the outcome of the HTTP fetch and parse: `none` models a
`RequestException` (non-success status or network failure) raised before the
anchor scan starts, `some anchors` models a parsed page whose anchors carry
the listed href values in document order. The method reads but never assigns
the scraper attributes, so the state is returned unchanged. -/
def find_recipe_links (st : ScraperState) (url : List Char)
    (fetch : Option (List (List Char))) (max_links : Nat) :
    ScraperState × FindResult :=
  match fetch with
  | none => (st, ⟨[], true⟩)
  | some anchors =>
    (st, ⟨findLoop st.base_url st.visited_urls url max_links [] anchors, false⟩)

/-- Hexadecimal digit characters, as `\uXXXX` escapes use them. -/
def hexChar : Nat → Char
  | 0 => '0' | 1 => '1' | 2 => '2' | 3 => '3' | 4 => '4' | 5 => '5' | 6 => '6'
  | 7 => '7' | 8 => '8' | 9 => '9' | 10 => 'a' | 11 => 'b' | 12 => 'c'
  | 13 => 'd' | 14 => 'e' | 15 => 'f'
  | _ => '0'

/-- JSON string escaping as `json.dumps` performs it with its default
`ensure_ascii=True`: quote, backslash and the short control escapes, and
`\uXXXX` for other control or non-ASCII characters (an astral character would
become a surrogate pair; one `\uXXXX` group stands in for it here — the
development only depends on an escape never containing a newline). -/
def escapeChar (c : Char) : List Char :=
  if c = '"' then ['\\', '"']
  else if c = '\\' then ['\\', '\\']
  else if c = '\n' then ['\\', 'n']
  else if c = '\r' then ['\\', 'r']
  else if c = '\t' then ['\\', 't']
  else if c = '\x08' then ['\\', 'b']
  else if c = '\x0c' then ['\\', 'f']
  else if c.toNat < 32 || 126 < c.toNat then
    ['\\', 'u', hexChar (c.toNat / 4096 % 16), hexChar (c.toNat / 256 % 16),
     hexChar (c.toNat / 16 % 16), hexChar (c.toNat % 16)]
  else [c]

/-- JSON escaping of a whole string value. -/
def escapeJSONString (s : List Char) : List Char := (s.map escapeChar).flatten

/-- `json.dumps` on one record (crawler.py line 167): Python dicts preserve
insertion order and `json.dumps` uses its default separators. -/
def jsonDumps (r : Record) : List Char :=
  "\x7b\"instruction\": \"".toList ++ escapeJSONString r.instruction ++
  "\", \"input\": \"".toList ++ escapeJSONString r.input ++
  "\", \"output\": \"".toList ++ escapeJSONString r.output ++ "\"\x7d".toList

/-- Number of lines Python file iteration (`sum(1 for _ in f)`, crawler.py
line 162) yields on a file with the given content: one line per newline
character, plus a final unterminated line when the content is nonempty and
does not end with a newline. -/
def countLines (s : List Char) : Nat :=
  s.count '\n' +
    (match s.getLast? with
     | some c => if c = '\n' then 0 else 1
     | none => 0)

/-- `save_to_jsonl` (crawler.py lines 148-169): `content` is the current
content of the target file (a missing file behaves as empty content). The
first component is the file content after the append; the second is the total
the status message reports — the pre-existing line count plus the number of
appended records. -/
def save_to_jsonl (content : List Char) (instruction_pairs : List Record) :
    List Char × Nat :=
  let existing_count := countLines content
  (content ++ (instruction_pairs.map (fun pair => jsonDumps pair ++ ['\n'])).flatten,
   existing_count + instruction_pairs.length)

/-- Per-link interaction data for one iteration of the orchestration loop:
the outcome of text extraction (`none` models a failed fetch) and the
generation-service outcomes for that link's batch. -/
structure LinkOutcome where
  text_content : Option (List Char)
  replies : List (Option (List Char))

/-- One iteration of the orchestration loop (crawler.py lines 181-193):
record the current URL, mark it visited, and — when extraction produced
text — run the generator and append its records to the dataset file. -/
def processOne (st : ScraperState) (file : List Char) (recipe_url : List Char)
    (oc : LinkOutcome) : ScraperState × List Char :=
  let st2 : ScraperState :=
    { st with url := some recipe_url, visited_urls := st.visited_urls ++ [recipe_url] }
  match oc.text_content with
  | none => (st2, file)
  | some text_content =>
    (st2, (save_to_jsonl file (generate_instruction_pairs text_content oc.replies)).1)

/-- The per-link loop of `process_multiple_recipes`. -/
def processLoop : ScraperState → List Char → List (List Char × LinkOutcome) →
    ScraperState × List Char
  | st, file, [] => (st, file)
  | st, file, (recipe_url, oc) :: rest =>
    let step := processOne st file recipe_url oc
    processLoop step.1 step.2 rest

/-- `process_multiple_recipes` (crawler.py lines 171-193): discover once from
the configured base URL, then process each discovered link in turn.
`outcomes` carries each link's interaction with the network and the
generation service. -/
def process_multiple_recipes (st : ScraperState) (file : List Char)
    (fetch : Option (List (List Char))) (max_recipes : Nat)
    (outcomes : List LinkOutcome) : ScraperState × List Char :=
  let disc := find_recipe_links st st.base_url fetch max_recipes
  processLoop disc.1 file (disc.2.links.zip outcomes)

/-- A character list with no leading and no trailing whitespace — what the
claims call being trimmed. -/
def isStripped (s : List Char) : Bool :=
  (match s.head? with | none => true | some c => !c.isWhitespace) &&
  (match s.getLast? with | none => true | some c => !c.isWhitespace)

/-- Modelled from the spec words, for comparison with the source behaviour:
the reading of the parsing step in which only a single leading label
occurrence is removed from the text before the `INPUT:` delimiter. -/
def stripLeadingLabel (label s : List Char) : List Char :=
  if startsWith label s then List.drop label.length s else s

/-! Support lemmas about the embedded string primitives. -/

theorem startsWith_append_self : ∀ (a y : List Char), startsWith a (a ++ y) = true
  | [], _ => rfl
  | c :: cs, y => by simp [startsWith, startsWith_append_self cs y]

theorem pyContains_self_append (a y : List Char) : pyContains a (a ++ y) = true := by
  cases a with
  | nil => cases y <;> simp [pyContains, startsWith]
  | cons c cs =>
    have h := startsWith_append_self (c :: cs) y
    simp only [List.cons_append] at h ⊢
    simp [pyContains, h]

theorem pyContains_append (a y : List Char) :
    ∀ x : List Char, pyContains a (x ++ a ++ y) = true := by
  intro x
  induction x with
  | nil => simpa using pyContains_self_append a y
  | cons d x ih =>
    simp only [List.cons_append, pyContains]
    simp only [List.append_assoc] at ih
    simp [ih]

theorem head?_dropWhile_false {p : Char → Bool} :
    ∀ {l : List Char} {c : Char}, (l.dropWhile p).head? = some c → p c = false := by
  intro l
  induction l with
  | nil => intro c h; simp [List.dropWhile] at h
  | cons a t ih =>
    intro c h
    by_cases hp : p a
    · rw [List.dropWhile_cons_of_pos hp] at h
      exact ih h
    · rw [List.dropWhile_cons_of_neg hp] at h
      simp at h
      rw [← h]
      simpa using hp

theorem getLast?_dropWhile_ne_nil {p : Char → Bool} :
    ∀ {l : List Char}, l.dropWhile p ≠ [] →
      (l.dropWhile p).getLast? = l.getLast? := by
  intro l
  induction l with
  | nil => intro h; simp [List.dropWhile] at h
  | cons a t ih =>
    intro h
    by_cases hp : p a
    · rw [List.dropWhile_cons_of_pos hp] at h ⊢
      have ht : t ≠ [] := by
        intro he
        rw [he] at h
        simp [List.dropWhile] at h
      obtain ⟨b, t', rfl⟩ := List.exists_cons_of_ne_nil ht
      rw [List.getLast?_cons_cons]
      exact ih h
    · rw [List.dropWhile_cons_of_neg hp]

theorem isStripped_pyStrip (s : List Char) : isStripped (pyStrip s) = true := by
  unfold pyStrip
  set A := s.dropWhile Char.isWhitespace with hA
  set X := A.reverse.dropWhile Char.isWhitespace with hX
  by_cases hXnil : X = []
  · simp [isStripped, hXnil]
  · have hhead : ∀ c, X.head? = some c → c.isWhitespace = false := by
      intro c hc
      exact head?_dropWhile_false (hX ▸ hc)
    have hXlast : X.getLast? = A.reverse.getLast? := by
      rw [hX]
      exact getLast?_dropWhile_ne_nil (hX ▸ hXnil)
    have hAne : A ≠ [] := by
      intro he
      apply hXnil
      rw [hX, he]
      simp [List.dropWhile]
    obtain ⟨c, t, hct⟩ := List.exists_cons_of_ne_nil hAne
    have hcA : A.head? = some c := by rw [hct]; rfl
    have hcw : c.isWhitespace = false := head?_dropWhile_false (hA ▸ hcA)
    obtain ⟨d, u, hdu⟩ := List.exists_cons_of_ne_nil hXnil
    have hdw : d.isWhitespace = false := hhead d (by rw [hdu]; rfl)
    have h1 : X.reverse.head? = some c := by
      rw [List.head?_reverse, hXlast, List.getLast?_reverse, hcA]
    have h2 : X.reverse.getLast? = some d := by
      rw [List.getLast?_reverse, hdu]; rfl
    simp [isStripped, h1, h2, hcw, hdw]

theorem pySplitF_ne_nil (sep : List Char) :
    ∀ (fuel : Nat) (s : List Char), pySplitF sep fuel s ≠ [] := by
  intro fuel
  induction fuel with
  | zero => intro s; cases s <;> simp [pySplitF]
  | succ fuel ih =>
    intro s
    cases s with
    | nil => simp [pySplitF]
    | cons c rest =>
      simp only [pySplitF]
      by_cases hc : (!sep.isEmpty && startsWith sep (c :: rest)) = true
      · simp [hc]
      · simp only [Bool.not_eq_true] at hc
        rw [if_neg (by simp [hc])]
        cases hs : pySplitF sep fuel rest with
        | nil => exact absurd hs (ih rest)
        | cons h t => simp

theorem length_pySplitF (sep : List Char) :
    ∀ (fuel : Nat) (s : List Char), s.length ≤ fuel →
      (pySplitF sep fuel s).length = pyCountF sep fuel s + 1 := by
  intro fuel
  induction fuel with
  | zero =>
    intro s hs
    have : s = [] := List.length_eq_zero.mp (Nat.le_zero.mp hs)
    subst this
    simp [pySplitF, pyCountF]
  | succ fuel ih =>
    intro s hs
    cases s with
    | nil => simp [pySplitF, pyCountF]
    | cons c rest =>
      by_cases hc : (!sep.isEmpty && startsWith sep (c :: rest)) = true
      · have hsep : sep ≠ [] := by
          intro he
          rw [he] at hc
          simp [List.isEmpty] at hc
        have hlen : (List.drop sep.length (c :: rest)).length ≤ fuel := by
          rw [List.length_drop]
          have h1 : 1 ≤ sep.length := List.length_pos.mpr hsep
          have h2 : rest.length ≤ fuel := Nat.le_of_succ_le_succ hs
          omega
        simp only [pySplitF, pyCountF, hc, if_true]
        rw [List.length_cons, ih _ hlen]
        omega
      · have hrest : rest.length ≤ fuel := Nat.le_of_succ_le_succ hs
        have hsp := ih rest hrest
        cases hsplit : pySplitF sep fuel rest with
        | nil => exact absurd hsplit (pySplitF_ne_nil sep fuel rest)
        | cons h t =>
          rw [hsplit] at hsp
          simp only [pySplitF, pyCountF]
          rw [if_neg hc, if_neg hc, hsplit]
          simp only [List.length_cons] at hsp ⊢
          omega

theorem length_pySplit (sep s : List Char) :
    (pySplit sep s).length = pyCount sep s + 1 :=
  length_pySplitF sep s.length s (Nat.le_refl _)

theorem parse_none_of_count_ne_one {s : List Char}
    (h : pyCount inputTok s ≠ 1) : parse_generated_content s = none := by
  have hlen : (pySplit inputTok s).length ≠ 2 := by
    rw [length_pySplit]
    omega
  simp only [parse_generated_content]
  cases hps : pySplit inputTok s with
  | nil => rfl
  | cons p0 rest =>
    cases rest with
    | nil => rfl
    | cons p1 rest2 =>
      cases rest2 with
      | nil => exact absurd (by rw [hps]; rfl) hlen
      | cons p2 rest3 => rfl

theorem parse_some_of_counts {s : List Char}
    (h1 : pyCount inputTok s = 1)
    (h2 : pyCount outputTok ((pySplit inputTok s).getD 1 []) = 1) :
    parse_generated_content s =
      some ⟨pyStrip (pyReplace instructionTok [] ((pySplit inputTok s).getD 0 [])),
            pyStrip ((pySplit outputTok ((pySplit inputTok s).getD 1 [])).getD 0 []),
            pyStrip ((pySplit outputTok ((pySplit inputTok s).getD 1 [])).getD 1 [])⟩ := by
  have hl1 : (pySplit inputTok s).length = 2 := by
    rw [length_pySplit, h1]
  obtain ⟨p0, p1, hps⟩ := List.length_eq_two.mp hl1
  have hp1 : (pySplit inputTok s).getD 1 [] = p1 := by rw [hps]; rfl
  rw [hp1] at h2
  have hl2 : (pySplit outputTok p1).length = 2 := by
    rw [length_pySplit, h2]
  obtain ⟨q0, q1, hqs⟩ := List.length_eq_two.mp hl2
  simp [parse_generated_content, hps, hqs]

theorem keepLink_spec {base_url href : List Char} {visited_urls : List (List Char)}
    (h : keepLink base_url visited_urls href = true) :
    (∃ pat ∈ recipe_patterns, pyContains pat (pyLower href) = true) ∧
    pyContains base_url href = true ∧ href ∉ visited_urls := by
  simp only [keepLink, Bool.and_eq_true, Bool.not_eq_true', decide_eq_false_iff_not,
    List.any_eq_true] at h
  exact ⟨h.1.1, h.1.2, h.2⟩

theorem findLoop_mem (base_url url : List Char) (visited_urls : List (List Char))
    (max_links : Nat) :
    ∀ (anchors acc : List (List Char)) (r : List Char),
      r ∈ findLoop base_url visited_urls url max_links acc anchors →
      r ∈ acc ∨ ((∃ a ∈ anchors, r = resolveHref url a) ∧
                 keepLink base_url visited_urls r = true) := by
  intro anchors
  induction anchors with
  | nil => intro acc r h; exact Or.inl h
  | cons a rest ih =>
    intro acc r h
    simp only [findLoop] at h
    by_cases hk : keepLink base_url visited_urls (resolveHref url a) = true
    · rw [if_pos hk] at h
      have hacc2 : ∀ x, x ∈ (if resolveHref url a ∈ acc then acc
          else acc ++ [resolveHref url a]) → x ∈ acc ∨ x = resolveHref url a := by
        intro x hx
        by_cases hm : resolveHref url a ∈ acc
        · rw [if_pos hm] at hx; exact Or.inl hx
        · rw [if_neg hm] at hx
          rcases List.mem_append.mp hx with h1 | h1
          · exact Or.inl h1
          · exact Or.inr (List.mem_singleton.mp h1)
      by_cases hstop : max_links ≤ (if resolveHref url a ∈ acc then acc
          else acc ++ [resolveHref url a]).length
      · rw [if_pos hstop] at h
        rcases hacc2 r h with h1 | h1
        · exact Or.inl h1
        · exact Or.inr ⟨⟨a, List.mem_cons_self a rest, h1⟩, h1 ▸ hk⟩
      · rw [if_neg hstop] at h
        rcases ih _ r h with h1 | h1
        · rcases hacc2 r h1 with h2 | h2
          · exact Or.inl h2
          · exact Or.inr ⟨⟨a, List.mem_cons_self a rest, h2⟩, h2 ▸ hk⟩
        · exact Or.inr ⟨⟨h1.1.choose, List.mem_cons_of_mem a h1.1.choose_spec.1,
            h1.1.choose_spec.2⟩, h1.2⟩
    · rw [if_neg hk] at h
      rcases ih _ r h with h1 | h1
      · exact Or.inl h1
      · exact Or.inr ⟨⟨h1.1.choose, List.mem_cons_of_mem a h1.1.choose_spec.1,
          h1.1.choose_spec.2⟩, h1.2⟩

theorem findLoop_length (base_url url : List Char) (visited_urls : List (List Char))
    (max_links : Nat) :
    ∀ (anchors acc : List (List Char)), acc.length < max_links →
      (findLoop base_url visited_urls url max_links acc anchors).length ≤ max_links := by
  intro anchors
  induction anchors with
  | nil => intro acc h; simpa [findLoop] using Nat.le_of_lt h
  | cons a rest ih =>
    intro acc h
    simp only [findLoop]
    by_cases hk : keepLink base_url visited_urls (resolveHref url a) = true
    · rw [if_pos hk]
      have hlen2 : (if resolveHref url a ∈ acc then acc
          else acc ++ [resolveHref url a]).length ≤ acc.length + 1 := by
        split <;> simp
      by_cases hstop : max_links ≤ (if resolveHref url a ∈ acc then acc
          else acc ++ [resolveHref url a]).length
      · rw [if_pos hstop]
        omega
      · rw [if_neg hstop]
        exact ih _ (by omega)
    · rw [if_neg hk]
      exact ih _ h

theorem noNL_hexChar (n : Nat) : hexChar n ≠ '\n' := by
  unfold hexChar
  split <;> decide

theorem noNL_escapeChar (c : Char) : '\n' ∉ escapeChar c := by
  unfold escapeChar
  split_ifs with h1 h2 h3 h4 h5 h6 h7 h8
  · decide
  · decide
  · decide
  · decide
  · decide
  · decide
  · decide
  · intro hmem
    simp only [List.mem_cons, List.not_mem_nil, or_false] at hmem
    rcases hmem with h | h | h | h | h | h
    · exact absurd h (by decide)
    · exact absurd h (by decide)
    · exact noNL_hexChar _ h.symm
    · exact noNL_hexChar _ h.symm
    · exact noNL_hexChar _ h.symm
    · exact noNL_hexChar _ h.symm
  · intro hmem
    simp only [List.mem_cons, List.not_mem_nil, or_false] at hmem
    rw [← hmem] at h8
    exact h8 (by decide)

theorem noNL_escapeJSONString (s : List Char) : '\n' ∉ escapeJSONString s := by
  intro h
  simp only [escapeJSONString, List.mem_flatten] at h
  obtain ⟨l, hl, hmem⟩ := h
  obtain ⟨c, _, rfl⟩ := List.mem_map.mp hl
  exact noNL_escapeChar c hmem

theorem noNL_jsonDumps (r : Record) : '\n' ∉ jsonDumps r := by
  intro h
  simp only [jsonDumps, List.mem_append] at h
  rcases h with ((((((h | h) | h) | h) | h) | h) | h)
  · exact absurd h (by decide)
  · exact noNL_escapeJSONString _ h
  · exact absurd h (by decide)
  · exact noNL_escapeJSONString _ h
  · exact absurd h (by decide)
  · exact noNL_escapeJSONString _ h
  · exact absurd h (by decide)

theorem countLines_append {content : List Char}
    (h : content = [] ∨ content.getLast? = some '\n') (t : List Char) :
    countLines (content ++ t) = countLines content + countLines t := by
  rcases h with rfl | h
  · simp [countLines]
  · cases t with
    | nil => simp [countLines]
    | cons b t' =>
      simp only [countLines, List.count_append]
      rw [List.getLast?_append_cons, h]
      simp only [if_true, reduceIte]
      omega

theorem countLines_line {a : List Char} (h : '\n' ∉ a) (t : List Char) :
    countLines (a ++ '\n' :: t) = 1 + countLines t := by
  simp only [countLines, List.count_append]
  rw [List.getLast?_append_cons, List.count_eq_zero.mpr h]
  cases t with
  | nil => decide
  | cons b t' =>
    rw [List.getLast?_cons_cons, List.count_cons_self]
    omega

theorem countLines_flatten (pairs : List Record) :
    countLines ((pairs.map (fun pair => jsonDumps pair ++ ['\n'])).flatten)
      = pairs.length := by
  induction pairs with
  | nil => rfl
  | cons p rest ih =>
    simp only [List.map_cons, List.flatten_cons, List.append_assoc,
      List.singleton_append]
    rw [countLines_line (noNL_jsonDumps p), ih]
    simp only [List.length_cons]
    omega

theorem processOne_fst (st : ScraperState) (file : List Char)
    (recipe_url : List Char) (oc : LinkOutcome) :
    (processOne st file recipe_url oc).1 =
      { st with url := some recipe_url,
                visited_urls := st.visited_urls ++ [recipe_url] } := by
  unfold processOne
  cases h : oc.text_content <;> simp [h]

theorem processLoop_state :
    ∀ (items : List (List Char × LinkOutcome)) (st : ScraperState) (file : List Char),
      (processLoop st file items).1.visited_urls
        = st.visited_urls ++ items.map Prod.fst ∧
      (processLoop st file items).1.base_url = st.base_url := by
  intro items
  induction items with
  | nil => intro st file; simp [processLoop]
  | cons item rest ih =>
    intro st file
    obtain ⟨u, oc⟩ := item
    simp only [processLoop]
    obtain ⟨ih1, ih2⟩ := ih (processOne st file u oc).1 (processOne st file u oc).2
    refine ⟨?_, ?_⟩
    · rw [ih1, processOne_fst]
      simp
    · rw [ih2, processOne_fst]

/-! Claim theorems. -/

/-- C1 (amended): a generation reply with zero or two-plus occurrences of
`INPUT:` yields no record; a reply with exactly one `INPUT:`, whose part after
the `INPUT:` contains exactly one `OUTPUT:`, yields exactly one record whose
three fields carry no leading or trailing whitespace. -/
theorem generation_reply_parsing (s : List Char) :
    (pyCount inputTok s ≠ 1 → parse_generated_content s = none) ∧
    (pyCount inputTok s = 1 →
      pyCount outputTok ((pySplit inputTok s).getD 1 []) = 1 →
      ∃ r, parse_generated_content s = some r ∧
        isStripped r.instruction = true ∧ isStripped r.input = true ∧
        isStripped r.output = true) := by
  refine ⟨fun h => parse_none_of_count_ne_one h, fun h1 h2 => ?_⟩
  exact ⟨_, parse_some_of_counts h1 h2, isStripped_pyStrip _, isStripped_pyStrip _,
    isStripped_pyStrip _⟩

/-- Witness for `generation_reply_parsing` at a concrete well-formed reply. -/
theorem generation_reply_parsing_witness :
    ∃ r, parse_generated_content "INSTRUCTION: a INPUT: b OUTPUT: c".toList = some r ∧
      isStripped r.instruction = true ∧ isStripped r.input = true ∧
      isStripped r.output = true :=
  (generation_reply_parsing "INSTRUCTION: a INPUT: b OUTPUT: c".toList).2
    (by decide) (by decide)

/-- C1 counterexample: this reply contains exactly one `INPUT:` and exactly
one `OUTPUT:`, yet parsing yields no record, because the `OUTPUT:` occurs
before the `INPUT:`. -/
theorem generation_reply_parsing_counterexample :
    pyCount inputTok "OUTPUT:aINPUT:b".toList = 1 ∧
    pyCount outputTok "OUTPUT:aINPUT:b".toList = 1 ∧
    parse_generated_content "OUTPUT:aINPUT:b".toList = none := by
  decide

/-- C2 (amended): for a requested maximum of at least one, every link found is
the resolution of some anchor href against the page URL, its lowercased form
contains one of the fixed recipe patterns, it contains the configured base
URL, and the number of links never exceeds the maximum. -/
theorem find_recipe_links_sound (st : ScraperState) (url : List Char)
    (anchors : List (List Char)) (max_links : Nat) (hmax : 1 ≤ max_links) :
    (∀ r ∈ (find_recipe_links st url (some anchors) max_links).2.links,
       (∃ a ∈ anchors, r = resolveHref url a) ∧
       (∃ pat ∈ recipe_patterns, pyContains pat (pyLower r) = true) ∧
       pyContains st.base_url r = true) ∧
    (find_recipe_links st url (some anchors) max_links).2.links.length
      ≤ max_links := by
  constructor
  · intro r hr
    have hmem := findLoop_mem st.base_url url st.visited_urls max_links anchors [] r
      (by simpa [find_recipe_links] using hr)
    rcases hmem with h | h
    · exact absurd h (List.not_mem_nil r)
    · obtain ⟨hres, hkeep⟩ := h
      obtain ⟨hpat, hdom, _⟩ := keepLink_spec hkeep
      exact ⟨hres, hpat, hdom⟩
  · have hlen := findLoop_length st.base_url url st.visited_urls max_links anchors []
      (by simpa using hmax)
    simpa [find_recipe_links] using hlen

/-- Witness for `find_recipe_links_sound` at a concrete page. -/
theorem find_recipe_links_sound_witness :
    (find_recipe_links ⟨"example.com".toList, [], none⟩
      "https://example.com/".toList (some ["/recipe/a".toList]) 1).2.links.length
      ≤ 1 :=
  (find_recipe_links_sound ⟨"example.com".toList, [], none⟩
    "https://example.com/".toList ["/recipe/a".toList] 1 (by decide)).2

/-- C2 counterexample: with a requested maximum of zero and one matching
anchor, the returned collection has one element, exceeding the maximum — the
source checks the bound only after an insertion. -/
theorem find_recipe_links_sound_counterexample :
    ¬((find_recipe_links ⟨"example.com".toList, [], none⟩
        "https://example.com/".toList (some ["/recipe/a".toList]) 0).2.links.length
        ≤ 0) := by
  decide

/-- C3: the user message embeds the first 2000 characters of the extracted
text verbatim, and depends on nothing beyond position 2000: two texts
agreeing on their first 2000 characters produce the same message. -/
theorem userMessage_truncates (t1 t2 : List Char) (h : 2000 < t1.length) :
    pyContains (t1.take 2000) (userMessage t1) = true ∧
    (t1.take 2000 = t2.take 2000 → userMessage t1 = userMessage t2) := by
  constructor
  · exact pyContains_append (t1.take 2000) userMsgAfter userMsgBefore
  · intro he
    simp only [userMessage, he]

/-- Witness for `userMessage_truncates` on a 2001-character text. -/
theorem userMessage_truncates_witness :
    pyContains ((List.replicate 2001 'a').take 2000)
      (userMessage (List.replicate 2001 'a')) = true :=
  (userMessage_truncates (List.replicate 2001 'a') (List.replicate 2001 'a')
    (by rw [List.length_replicate]; omega)).1

/-- C4 (amended): appending K records to existing content of M lines that is
empty or newline-terminated yields M+K lines; the reported total is M+K with
no condition on the existing content. -/
theorem save_to_jsonl_lines (content : List Char) (pairs : List Record)
    (M K : Nat) (hM : countLines content = M) (hK : pairs.length = K) :
    (save_to_jsonl content pairs).2 = M + K ∧
    (content = [] ∨ content.getLast? = some '\n' →
      countLines (save_to_jsonl content pairs).1 = M + K) := by
  subst hM hK
  refine ⟨by simp [save_to_jsonl], fun hterm => ?_⟩
  simp only [save_to_jsonl]
  rw [countLines_append hterm, countLines_flatten]

/-- Witness for `save_to_jsonl_lines` on a one-line newline-terminated file. -/
theorem save_to_jsonl_lines_witness :
    countLines (save_to_jsonl ['\n'] [⟨"a".toList, "b".toList, "c".toList⟩]).1
      = 1 + 1 :=
  (save_to_jsonl_lines ['\n'] [⟨"a".toList, "b".toList, "c".toList⟩] 1 1
    (by decide) (by decide)).2 (Or.inr (by decide))

/-- C4 counterexample: an existing file holding one line with no trailing
newline still holds one line after one record is appended, not 1+1, because
the appended record merges into the unterminated line. -/
theorem save_to_jsonl_lines_counterexample :
    countLines ['x'] = 1 ∧
    ([⟨"a".toList, "b".toList, "c".toList⟩] : List Record).length = 1 ∧
    countLines (save_to_jsonl ['x'] [⟨"a".toList, "b".toList, "c".toList⟩]).1
      ≠ 1 + 1 := by
  decide

/-- C5: a URL in the visited set is never returned by discovery; membership
is exact equality of the URL strings, with no normalization. -/
theorem visited_never_returned (st : ScraperState) (url : List Char)
    (fetch : Option (List (List Char))) (max_links : Nat) (u : List Char)
    (h : u ∈ st.visited_urls) :
    u ∉ (find_recipe_links st url fetch max_links).2.links := by
  intro hmem
  cases fetch with
  | none => simp [find_recipe_links] at hmem
  | some anchors =>
    have hsrc := findLoop_mem st.base_url url st.visited_urls max_links anchors [] u
      (by simpa [find_recipe_links] using hmem)
    rcases hsrc with h1 | h1
    · exact List.not_mem_nil u h1
    · exact (keepLink_spec h1.2).2.2 h

/-- Witness for `visited_never_returned` on a concrete visited URL. -/
theorem visited_never_returned_witness :
    "https://example.com/recipe/a".toList ∉
      (find_recipe_links
        ⟨"example.com".toList, ["https://example.com/recipe/a".toList], none⟩
        "https://example.com/".toList (some ["/recipe/a".toList]) 10).2.links :=
  visited_never_returned _ _ _ _ _ (by decide)

/-- C6: a generation batch of N attempts yields between 0 and N records, and
an attempt that fails (service exception or unparsable reply) contributes no
record while leaving every other attempt's result untouched. -/
theorem generate_bounded_and_fault_isolated (text_content : List Char)
    (outcomes : List (Option (List Char))) (N : Nat)
    (hN : outcomes.length = N) :
    (generate_instruction_pairs text_content outcomes).length ≤ N ∧
    (∀ (xs ys : List (Option (List Char))) (oc : Option (List Char)),
       oc.bind parse_generated_content = none →
       generate_instruction_pairs text_content (xs ++ oc :: ys) =
         generate_instruction_pairs text_content (xs ++ ys)) := by
  constructor
  · rw [← hN]
    exact List.length_filterMap_le _ _
  · intro xs ys oc hoc
    simp [generate_instruction_pairs, List.filterMap_append, List.filterMap_cons, hoc]

/-- Witness for `generate_bounded_and_fault_isolated` on one failing attempt. -/
theorem generate_bounded_and_fault_isolated_witness :
    (generate_instruction_pairs [] [none]).length ≤ 1 :=
  (generate_bounded_and_fault_isolated [] [none] 1 rfl).1

/-- C7: when the HTTP fetch raises, the failure is caught, the error message
is printed, and the empty collection is returned. -/
theorem fetch_failure_empty (st : ScraperState) (url : List Char)
    (max_links : Nat) :
    (find_recipe_links st url none max_links).2.links = [] ∧
    (find_recipe_links st url none max_links).2.errorLogged = true :=
  ⟨rfl, rfl⟩

/-- C8: on the three-anchor page with base domain example.com and maximum 1,
discovery returns exactly the resolved `/recipe/pasta` — the first matching
anchor in document order — and does not include the resolved `/about`. -/
theorem discovery_scenario :
    (find_recipe_links ⟨"example.com".toList, [], none⟩
       "https://example.com/".toList
       (some ["/recipe/pasta".toList, "/about".toList, "/recipes/soup".toList])
       1).2.links
      = ["https://example.com/recipe/pasta".toList] ∧
    "https://example.com/about".toList ∉
      (find_recipe_links ⟨"example.com".toList, [], none⟩
        "https://example.com/".toList
        (some ["/recipe/pasta".toList, "/about".toList, "/recipes/soup".toList])
        1).2.links := by
  decide

/-- C9: discovery returns the scraper state unchanged (visited set and base
URL included); only the orchestration loop grows the visited set, by exactly
the discovered links it processes, and it leaves the base URL alone. -/
theorem visited_only_mutated_by_loop (st : ScraperState) (file : List Char)
    (url : List Char) (fetch : Option (List (List Char))) (max_recipes : Nat)
    (outcomes : List LinkOutcome)
    (hlen : (find_recipe_links st st.base_url fetch max_recipes).2.links.length
      ≤ outcomes.length) :
    (find_recipe_links st url fetch max_recipes).1 = st ∧
    (process_multiple_recipes st file fetch max_recipes outcomes).1.visited_urls
      = st.visited_urls ++ (find_recipe_links st st.base_url fetch max_recipes).2.links ∧
    (process_multiple_recipes st file fetch max_recipes outcomes).1.base_url
      = st.base_url := by
  have hst : (find_recipe_links st st.base_url fetch max_recipes).1 = st := by
    cases fetch <;> rfl
  obtain ⟨h1, h2⟩ := processLoop_state
    ((find_recipe_links st st.base_url fetch max_recipes).2.links.zip outcomes)
    (find_recipe_links st st.base_url fetch max_recipes).1 file
  refine ⟨by cases fetch <;> rfl, ?_, ?_⟩
  · simp only [process_multiple_recipes]
    rw [h1, hst, List.map_fst_zip _ _ hlen]
  · simp only [process_multiple_recipes]
    rw [h2, hst]

/-- Witness for `visited_only_mutated_by_loop` on a concrete one-link run. -/
theorem visited_only_mutated_by_loop_witness :
    (process_multiple_recipes ⟨"example.com".toList, [], none⟩ []
        (some ["/recipe/a".toList]) 1 [⟨none, []⟩]).1.visited_urls
      = [] ++ (find_recipe_links ⟨"example.com".toList, [], none⟩
          "example.com".toList (some ["/recipe/a".toList]) 1).2.links :=
  (visited_only_mutated_by_loop ⟨"example.com".toList, [], none⟩ []
    "example.com".toList (some ["/recipe/a".toList]) 1 [⟨none, []⟩]
    (by decide)).2.1

/-- C10: the parser removes every `INSTRUCTION:` occurrence in the part
before the `INPUT:` delimiter (a replace-all): on this reply, whose
instruction body itself contains `INSTRUCTION:`, the stored instruction
differs from that part with only a single leading label stripped. -/
theorem instruction_replace_all :
    parse_generated_content
        "INSTRUCTION: Use INSTRUCTION: format INPUT: x OUTPUT: y".toList
      = some ⟨"Use  format".toList, "x".toList, "y".toList⟩ ∧
    "Use  format".toList ≠ pyStrip (stripLeadingLabel instructionTok
        ((pySplit inputTok
          "INSTRUCTION: Use INSTRUCTION: format INPUT: x OUTPUT: y".toList).getD 0 [])) := by
  decide
